import Mathlib

/-!
auther: replaying a Burp Suite history with one overridden header.

A shallow embedding of `cmd/auther/main.go`.

* Go strings are Lean `String`s; the two `strings` functions the program calls
  (`Split` with the separator `":"` and `Trim` with the cutset `" "`) are defined on
  the characters of the string.
* `http.Header` is a Go `map[string][]string`; it is embedded as a partial function from
  keys to value lists (`none` = key absent).
* `[]*http.Request` is a list of addresses into a heap of requests, so that the in-place
  mutation of `reqs[i].Header` and a slice naming one request twice are both represented.
* The network (`client.Do`) and the Go runtime scheduler are parameters: an exchange
  oracle and the order in which the goroutines finish.
* `log.Fatal` and an unrecovered panic end the process; a run therefore ends in one of
  three ways, see `Exit`.
-/

namespace Auther

/-! ## `strings.Split` and `strings.Trim` -/

/-- The pieces of `s` between the occurrences of `sep`, on characters:
    `n` occurrences give `n + 1` pieces, and the empty input gives one empty piece. -/
def splitChars (sep : Char) : List Char → List (List Char)
  | [] => [[]]
  | c :: cs =>
    if c = sep then [] :: splitChars sep cs
    else
      match splitChars sep cs with
      | [] => [[c]]
      | w :: ws => (c :: w) :: ws

/-- Go `strings.Split(s, sep)` for a one-character separator. -/
def Split (s : String) (sep : Char) : List String :=
  (splitChars sep s.data).map String.mk

/-- Go `strings.Trim(s, cutset)` for a one-character cutset: every leading and every
    trailing occurrence of `cut` is removed. -/
def Trim (s : String) (cut : Char) : String :=
  ⟨((s.data.dropWhile (fun c => c == cut)).reverse.dropWhile (fun c => c == cut)).reverse⟩

/-! ## `http.Header` -/

/-- Go `map[string][]string`: `none` when the key is absent. -/
abbrev Header := String → Option (List String)

/-- Go `textproto.validHeaderFieldByte`: the token characters of RFC 7230
    (letters, digits and fifteen punctuation marks, listed by code point). -/
def validHeaderFieldByte (c : Char) : Bool :=
  let n := c.toNat
  (48 ≤ n && n ≤ 57) || (65 ≤ n && n ≤ 90) || (97 ≤ n && n ≤ 122) ||
    [33, 35, 36, 37, 38, 39, 42, 43, 45, 46, 94, 95, 96, 124, 126].contains n

/-- The canonicalising loop of Go `textproto.canonicalMIMEHeaderKey`: upper case at the
    start and after each `-`, lower case elsewhere. `upper` says whether the next letter
    is to be upper case. -/
def canonLoop : Bool → List Char → List Char
  | _, [] => []
  | upper, c :: cs =>
    let c1 :=
      if upper && decide ('a' ≤ c) && decide (c ≤ 'z') then Char.ofNat (c.toNat - 32)
      else if !upper && decide ('A' ≤ c) && decide (c ≤ 'Z') then Char.ofNat (c.toNat + 32)
      else c
    c1 :: canonLoop (c1 == '-') cs

/-- Go `textproto.CanonicalMIMEHeaderKey` (`http.CanonicalHeaderKey`): a key holding a
    character that is not a header field byte (a space, for one) is returned unchanged;
    any other key is put in canonical form. -/
def CanonicalMIMEHeaderKey (s : String) : String :=
  if s.data.all validHeaderFieldByte then ⟨canonLoop true s.data⟩ else s

/-- Go `Header.Add(key, value)`: `key` is canonicalised and `value` is appended to the
    values already stored under the canonical key. -/
def Header.Add (h : Header) (key value : String) : Header :=
  let key := CanonicalMIMEHeaderKey key
  Function.update h key (some ((h key).getD [] ++ [value]))

/-! ## Requests, responses and the heap -/

/-- Go `url.URL`, the fields the program can observe. -/
structure URL where
  Scheme : String
  Host : String
  Path : String
  RawQuery : String

/-- Go `http.Request`, the fields the program reads or writes.
    `URL` is `none` for a nil `*url.URL`. -/
structure Request where
  Method : String
  URL : Option URL
  RequestURI : String
  Header : Header
  Body : List UInt8

/-- Go `http.Response`, the fields the program reads. -/
structure Response where
  Status : String
  StatusCode : Nat

/-- The requests behind the `*http.Request` pointers, by address. -/
abbrev Heap := Nat → Request

/-- The struct `Connect`: `req` is the address of a request, `none` for nil;
    `res` is `none` for a nil response. -/
structure Connect where
  req : Option Nat
  res : Option Response

/-- How a call ends. `fatal` is `log.Fatal` (the message is logged and the process exits
    with status 1); `panicked` is a panic nobody recovers (the process dies). -/
inductive Exit (α : Type) where
  | returned (v : α)
  | fatal (msg : String)
  | panicked (msg : String)

/-- The network as the program sees it: `client i r` is the result of the call
    `client.Do` made by goroutine `i` for the request `r`, a response or an error. -/
abbrev Client := Nat → Request → Except String Response

/-! ## `Req` -/

/-- The body of the loop at lines 171-177, for one request: a header stored under exactly
    `headerName` is replaced by the one value, otherwise `Header.Add` is called. -/
def setHeader (r : Request) (headerName headerData : String) : Request :=
  if (r.Header headerName).isSome then
    { r with Header := Function.update r.Header headerName (some [headerData]) }
  else
    { r with Header := r.Header.Add headerName headerData }

/-- The loop at lines 171-177: the requests are updated in place, in slice order. -/
def setHeaders (heap : Heap) (headerName headerData : String) : List Nat → Heap
  | [] => heap
  | p :: ps =>
    setHeaders (Function.update heap p (setHeader (heap p) headerName headerData))
      headerName headerData ps

/-- The goroutine started for index `i` (lines 193-202), run to its end: one exchange,
    a panic when it fails, otherwise the pair is written to slot `i`. -/
def goroutine (client : Client) (heap : Heap) (reqs : List Nat) (i : Nat)
    (conns : List Connect) : Except String (List Connect) :=
  match reqs.get? i with
  | none => .ok conns
  | some p =>
    match client i (heap p) with
    | .error err => .error err
    | .ok resp => .ok (conns.set i { req := some p, res := some resp })

/-- The state of a run of `Req`: the heap, the exchanges made so far (index and request
    as sent, oldest first) and how the call ended. -/
structure Run where
  heap : Heap
  dispatched : List (Nat × Request)
  exit : Exit (List Connect)

/-- Lines 191-206. The goroutines finish in the order `sched`; each touches only its own
    slot. The first failed exchange panics in its goroutine, where the deferred `recover`
    of `Req` does not reach, and the process dies. When all are done `wg.Wait` returns
    and `Req` returns `conns`. -/
def dispatch (client : Client) (heap : Heap) (reqs : List Nat) :
    List Nat → List (Nat × Request) → List Connect → Run
  | [], sent, conns => { heap := heap, dispatched := sent, exit := .returned conns }
  | i :: rest, sent, conns =>
    match reqs.get? i with
    | none => dispatch client heap reqs rest sent conns
    | some p =>
      match goroutine client heap reqs i conns with
      | .error err =>
        { heap := heap, dispatched := sent ++ [(i, heap p)], exit := .panicked err }
      | .ok conns1 => dispatch client heap reqs rest (sent ++ [(i, heap p)]) conns1

/-- The function `Req` (lines 153-207). `sched` is the order in which the goroutines
    finish, a permutation of the indices of `reqs` chosen by the scheduler.
    `headerSet[1]` panics when `Split` gave one piece only; that panic is in the
    goroutine of `Req`, so the deferred function recovers it and calls `log.Fatal`. -/
def Req (client : Client) (sched : List Nat) (heap : Heap) (reqs : List Nat)
    (header : String) : Run :=
  let conns : List Connect := List.replicate reqs.length { req := none, res := none }
  let headerSet := Split header ':'
  match headerSet with
  | h0 :: h1 :: _ =>
    let headerName := Trim h0 ' '
    let headerData := Trim h1 ' '
    let heap1 := setHeaders heap headerName headerData reqs
    dispatch client heap1 reqs sched [] conns
  | _ =>
    { heap := heap, dispatched := [],
      exit := .fatal "Recovering from panic:runtime error: index out of range [1] with length 1" }

/-! ## `ParseBurpHist` -/

/-- One `item` of the struct `Items` that `xml.Unmarshal` fills. -/
structure Item where
  Text : String := ""
  Time : String := ""
  URL : String := ""
  HostText : String := ""
  HostIp : String := ""
  Port : String := ""
  Protocol : String := ""
  Method : String := ""
  Path : String := ""
  Extension : String := ""
  RequestText : String := ""
  RequestBase64 : String := ""
  Status : String := ""
  Responselength : String := ""
  Mimetype : String := ""
  ResponseText : String := ""
  ResponseBase64 : String := ""
  Comment : String := ""

/-- The struct `Items`. -/
structure Items where
  Text : String := ""
  BurpVersion : String := ""
  ExportTime : String := ""
  Item : List Item := []

/-- The standard-library calls of `ParseBurpHist`, as parameters. Each returns what the
    Go function returns; `Unmarshal` returns the struct as it left it together with its
    error (`none` for nil). -/
structure Lib where
  Open : String → Except String Nat
  ReadAll : Nat → Except String (List UInt8)
  Unmarshal : List UInt8 → Items × Option String
  DecodeString : String → Except String (List UInt8)
  ReadRequest : List UInt8 → Except String Request
  Parse : String → Except String URL

/-- The loop at lines 117-147: every item is decoded, parsed and appended; the first
    failing step is fatal. -/
def parseItems (lib : Lib) : List Item → List Request → Exit (List Request)
  | [], reqs => .returned reqs
  | it :: rest, reqs =>
    match lib.DecodeString it.RequestText with
    | .error _ => .fatal "[!] Cannot decode contents in file."
    | .ok data =>
      match lib.ReadRequest data with
      | .error _ => .fatal "[!] Cannot parse request."
      | .ok req =>
        match lib.Parse it.URL with
        | .error _ => .fatal "[!] Cannot parse request in file."
        | .ok u => parseItems lib rest (reqs ++ [{ req with RequestURI := "", URL := some u }])

/-- The function `ParseBurpHist` (lines 91-150). The error of `xml.Unmarshal` is not
    looked at (line 113); the loop runs over whatever items the struct holds. -/
def ParseBurpHist (lib : Lib) (file : String) : Exit (List Request) :=
  match lib.Open file with
  | .error _ => .fatal "[!] Input correct file path, Please."
  | .ok xmlFile =>
    match lib.ReadAll xmlFile with
    | .error _ => .fatal "[!] Cannot read file."
    | .ok byteValue =>
      let items := (lib.Unmarshal byteValue).1
      parseItems lib items.Item []

/-! ## Sample inputs

Concrete requests, networks and library behaviours on which the theorems below are
exercised. -/

/-- A request as `http.ReadRequest` builds it for `GET /a` with one `Cookie` header. -/
def sampleRequest : Request :=
  { Method := "GET", URL := none, RequestURI := "/a",
    Header := fun k => if k = "Cookie" then some ["old"] else none, Body := [] }

/-- A heap in which every address holds `sampleRequest`. -/
def sampleHeap : Heap := fun _ => sampleRequest

/-- A network on which every exchange is answered with `200 OK`. -/
def okClient : Client := fun _ _ => .ok { Status := "200 OK", StatusCode := 200 }

/-- A network on which the exchange of goroutine 0 is refused and every other exchange
    is answered with `200 OK`. -/
def refusingClient : Client := fun i _ =>
  if i = 0 then .error "dial tcp: connection refused"
  else .ok { Status := "200 OK", StatusCode := 200 }

/-- A library behaviour with two files. `broken.xml` holds the one byte `<`, on which
    `xml.Unmarshal` reports a syntax error and leaves the struct empty. `history.xml`
    stands for a well-formed export (its bytes are abbreviated) that unmarshals to two
    items, the second with an empty `request` element. The empty string decodes to no
    bytes, on which `http.ReadRequest` reports `EOF`. -/
def sampleLib : Lib where
  Open := fun file =>
    if file = "broken.xml" then .ok 3
    else if file = "history.xml" then .ok 4
    else .error "open: no such file or directory"
  ReadAll := fun fd => if fd = 3 then .ok [60] else .ok [60, 105, 62]
  Unmarshal := fun b =>
    if b = [60] then ({}, some "XML syntax error on line 1: unexpected EOF")
    else
      ({ Item := [{ URL := "http://example.test/a", RequestText := "R0VUIC9hIEhUVFAvMS4x" },
                  { URL := "http://example.test/b", RequestText := "" }] }, none)
  DecodeString := fun t => if t = "" then .ok [] else .ok [71, 69, 84]
  ReadRequest := fun data => if data = [] then .error "EOF" else .ok sampleRequest
  Parse := fun u => .ok { Scheme := "http", Host := "example.test", Path := u, RawQuery := "" }

/-! ## Facts about `Split` and `Trim` -/

theorem splitChars_of_not_mem (sep : Char) (s : List Char) (h : sep ∉ s) :
    splitChars sep s = [s] := by
  induction s with
  | nil => rfl
  | cons c cs ih =>
    have hc : c ≠ sep := fun e => h (by simp [e])
    have hcs : sep ∉ cs := fun e => h (by simp [e])
    simp [splitChars, hc, ih hcs]

theorem splitChars_append_sep (sep : Char) (a b : List Char) (h : sep ∉ a) :
    splitChars sep (a ++ sep :: b) = a :: splitChars sep b := by
  induction a with
  | nil => simp [splitChars]
  | cons c cs ih =>
    have hc : c ≠ sep := fun e => h (by simp [e])
    have hcs : sep ∉ cs := fun e => h (by simp [e])
    simp [splitChars, hc, ih hcs]

theorem splitChars_ne_nil (sep : Char) (s : List Char) : splitChars sep s ≠ [] := by
  cases s with
  | nil => simp [splitChars]
  | cons c cs =>
    simp only [splitChars]
    split
    · simp
    · split <;> simp

theorem splitChars_two_of_mem (sep : Char) (s : List Char) (h : sep ∈ s) :
    ∃ a b rest, splitChars sep s = a :: b :: rest := by
  induction s with
  | nil => simp at h
  | cons c cs ih =>
    by_cases hc : c = sep
    · cases hs : splitChars sep cs with
      | nil => exact absurd hs (splitChars_ne_nil sep cs)
      | cons w ws => exact ⟨[], w, ws, by simp [splitChars, hc, hs]⟩
    · have hcs : sep ∈ cs := by
        rcases List.mem_cons.1 h with e | e
        · exact absurd e.symm hc
        · exact e
      obtain ⟨a, b, rest, e⟩ := ih hcs
      exact ⟨c :: a, b, rest, by simp [splitChars, hc, e]⟩

theorem Split_of_not_mem (header : String) (h : ':' ∉ header.data) :
    Split header ':' = [header] := by
  simp [Split, splitChars_of_not_mem _ _ h]

theorem Split_two_of_mem (header : String) (h : ':' ∈ header.data) :
    ∃ h0 h1 rest, Split header ':' = h0 :: h1 :: rest := by
  obtain ⟨a, b, rest, e⟩ := splitChars_two_of_mem _ _ h
  exact ⟨⟨a⟩, ⟨b⟩, rest.map String.mk, by simp [Split, e]⟩

theorem dropWhile_replicate_append (cut : Char) (n : Nat) (s : List Char)
    (h : s.head? ≠ some cut) :
    (List.replicate n cut ++ s).dropWhile (fun c => c == cut) = s := by
  induction n with
  | zero =>
    cases s with
    | nil => rfl
    | cons c cs =>
      have hc : c ≠ cut := fun e => h (by simp [e])
      simp [List.dropWhile_cons, hc]
  | succ n ih => simpa [List.replicate_succ, List.dropWhile_cons] using ih

theorem dropWhile_replicate (cut : Char) (n : Nat) :
    (List.replicate n cut).dropWhile (fun c => c == cut) = [] := by
  have h := dropWhile_replicate_append cut n [] (by simp)
  rwa [List.append_nil] at h

/-- `Trim` undoes padding with the cut character. -/
theorem Trim_padded (cut : Char) (a b : Nat) (s : List Char)
    (h1 : s.head? ≠ some cut) (h2 : s.getLast? ≠ some cut) :
    Trim ⟨List.replicate a cut ++ s ++ List.replicate b cut⟩ cut = ⟨s⟩ := by
  have hr : s.reverse.head? ≠ some cut := by simpa using h2
  cases s with
  | nil =>
    simp only [Trim, List.append_nil, ← List.replicate_add, dropWhile_replicate,
      List.reverse_nil, List.dropWhile_nil]
  | cons c cs =>
    have e1 : (List.replicate a cut ++ (c :: cs) ++ List.replicate b cut).dropWhile
        (fun c => c == cut) = (c :: cs) ++ List.replicate b cut := by
      rw [List.append_assoc]
      exact dropWhile_replicate_append cut a _ (by simpa using h1)
    simp only [Trim, e1, List.reverse_append, List.reverse_replicate]
    rw [dropWhile_replicate_append cut b _ hr, List.reverse_reverse]

/-! ## Facts about the override loop -/

theorem setHeader_canonical (r : Request) (name data : String)
    (hc : CanonicalMIMEHeaderKey name = name) :
    (setHeader r name data).Header name = some [data] := by
  unfold setHeader
  split
  · simp
  · next hn =>
    have hnone : r.Header name = none := by
      cases h : r.Header name with
      | none => rfl
      | some v => simp [h] at hn
    simp [Header.Add, hc, hnone]

theorem setHeaders_of_not_mem (heap : Heap) (name data : String) (reqs : List Nat)
    (p : Nat) (hp : p ∉ reqs) : setHeaders heap name data reqs p = heap p := by
  induction reqs generalizing heap with
  | nil => rfl
  | cons q qs ih =>
    have hq : p ≠ q := fun e => hp (by simp [e])
    have hqs : p ∉ qs := fun e => hp (by simp [e])
    simp [setHeaders, ih _ hqs, Function.update_noteq hq]

theorem setHeaders_canonical (heap : Heap) (name data : String) (reqs : List Nat)
    (hc : CanonicalMIMEHeaderKey name = name) (p : Nat) (hp : p ∈ reqs) :
    (setHeaders heap name data reqs p).Header name = some [data] := by
  induction reqs generalizing heap with
  | nil => simp at hp
  | cons q qs ih =>
    simp only [setHeaders]
    by_cases hqs : p ∈ qs
    · exact ih _ hqs
    · have hq : p = q := by
        rcases List.mem_cons.1 hp with e | e
        · exact e
        · exact absurd e hqs
      subst hq
      rw [setHeaders_of_not_mem _ _ _ _ _ hqs, Function.update_same]
      exact setHeader_canonical _ _ _ hc

/-! ## Facts about the dispatch -/

theorem dispatch_heap (client : Client) (heap : Heap) (reqs sched : List Nat)
    (sent : List (Nat × Request)) (conns : List Connect) :
    (dispatch client heap reqs sched sent conns).heap = heap := by
  induction sched generalizing sent conns with
  | nil => rfl
  | cons i rest ih =>
    simp only [dispatch]
    split
    · exact ih _ _
    · split
      · rfl
      · exact ih _ _

theorem Req_of_split (client : Client) (sched : List Nat) (heap : Heap) (reqs : List Nat)
    (header h0 h1 : String) (rest : List String) (h : Split header ':' = h0 :: h1 :: rest) :
    Req client sched heap reqs header =
      dispatch client (setHeaders heap (Trim h0 ' ') (Trim h1 ' ') reqs) reqs sched []
        (List.replicate reqs.length { req := none, res := none }) := by
  simp [Req, h]

theorem Req_of_one_piece (client : Client) (sched : List Nat) (heap : Heap)
    (reqs : List Nat) (header h0 : String) (h : Split header ':' = [h0]) :
    Req client sched heap reqs header =
      { heap := heap, dispatched := [],
        exit := .fatal
          "Recovering from panic:runtime error: index out of range [1] with length 1" } := by
  simp only [Req, h]

theorem Req_heap_of_split (client : Client) (sched : List Nat) (heap : Heap)
    (reqs : List Nat) (header h0 h1 : String) (rest : List String)
    (h : Split header ':' = h0 :: h1 :: rest) :
    (Req client sched heap reqs header).heap =
      setHeaders heap (Trim h0 ' ') (Trim h1 ' ') reqs := by
  rw [Req_of_split _ _ _ _ _ _ _ _ h, dispatch_heap]

/-- When every exchange succeeds the dispatch returns, keeps the number of slots, and a
    slot that is scheduled (or already filled) ends up holding its own pair. -/
theorem dispatch_all_ok (client : Client) (heap : Heap) (reqs sched : List Nat)
    (sent : List (Nat × Request)) (conns : List Connect)
    (hok : ∀ i p, reqs.get? i = some p → ∃ resp, client i (heap p) = .ok resp) :
    ∃ out, (dispatch client heap reqs sched sent conns).exit = .returned out ∧
      out.length = conns.length ∧
      ∀ i p resp, reqs.get? i = some p → client i (heap p) = .ok resp → i < conns.length →
        (i ∈ sched ∨ conns.get? i = some { req := some p, res := some resp }) →
        out.get? i = some { req := some p, res := some resp } := by
  induction sched generalizing sent conns with
  | nil =>
    refine ⟨conns, rfl, rfl, ?_⟩
    intro i p resp _ _ _ h
    simpa using h
  | cons j rest ih =>
    cases hj : reqs.get? j with
    | none =>
      obtain ⟨out, h1, h2, h3⟩ := ih sent conns
      refine ⟨out, by simp only [dispatch, hj]; exact h1, h2, ?_⟩
      intro i p resp hi hc hlt h
      refine h3 i p resp hi hc hlt ?_
      rcases h with h | h
      · rcases List.mem_cons.1 h with e | e
        · subst e; rw [hj] at hi; cases hi
        · exact Or.inl e
      · exact Or.inr h
    | some q =>
      obtain ⟨r, hr⟩ := hok j q hj
      obtain ⟨out, h1, h2, h3⟩ :=
        ih (sent ++ [(j, heap q)]) (conns.set j { req := some q, res := some r })
      refine ⟨out, by simp only [dispatch, hj, goroutine, hr]; exact h1, by simpa using h2, ?_⟩
      intro i p resp hi hc hlt h
      refine h3 i p resp hi hc (by simpa using hlt) ?_
      by_cases hij : i = j
      · subst hij
        rw [hj] at hi
        cases hi
        rw [hr] at hc
        cases hc
        right
        simp [List.getElem?_set, hlt]
      · rcases h with h | h
        · rcases List.mem_cons.1 h with e | e
          · exact absurd e hij
          · exact Or.inl e
        · right
          rw [← h]
          simp [List.getElem?_set, Ne.symm hij]

/-- One failed exchange among the scheduled goroutines kills the process. -/
theorem dispatch_panics (client : Client) (heap : Heap) (reqs sched : List Nat)
    (sent : List (Nat × Request)) (conns : List Connect)
    (j p : Nat) (err : String) (hj : j ∈ sched) (hp : reqs.get? j = some p)
    (hfail : client j (heap p) = .error err) :
    ∃ msg, (dispatch client heap reqs sched sent conns).exit = .panicked msg := by
  induction sched generalizing sent conns with
  | nil => simp at hj
  | cons k rest ih =>
    by_cases hkj : j = k
    · subst hkj
      exact ⟨err, by simp only [dispatch, hp, goroutine, hfail]⟩
    · have hr : j ∈ rest := by
        rcases List.mem_cons.1 hj with e | e
        · exact absurd e hkj
        · exact e
      simp only [dispatch]
      split
      · exact ih _ _ hr
      · split
        · exact ⟨_, rfl⟩
        · exact ih _ _ hr

theorem setHeaders_singleton (heap : Heap) (name data : String) (p : Nat) :
    setHeaders heap name data [p] p = setHeader (heap p) name data := by
  simp [setHeaders]

theorem setHeader_of_absent (r : Request) (name data : String)
    (h : r.Header name = none) :
    (setHeader r name data).Header = r.Header.Add name data := by
  simp [setHeader, h]

theorem parseItems_empty_request (lib : Lib) (pre post : List Item) (it : Item)
    (acc : List Request) (hempty : it.RequestText = "")
    (hdec : lib.DecodeString "" = .ok []) (err : String)
    (hreq : lib.ReadRequest [] = .error err) :
    ∃ msg, parseItems lib (pre ++ it :: post) acc = .fatal msg := by
  induction pre generalizing acc with
  | nil =>
    exact ⟨"[!] Cannot parse request.",
      by simp only [List.nil_append, parseItems, hempty, hdec, hreq]⟩
  | cons a as ih =>
    simp only [List.cons_append, parseItems]
    split
    · exact ⟨_, rfl⟩
    · split
      · exact ⟨_, rfl⟩
      · split
        · exact ⟨_, rfl⟩
        · exact ih _

/-! ## The claims -/

/-- C1: for every slice of requests (the empty one too) and every override string that
    holds a colon, when every exchange yields a response, `Req` returns `conns` of the
    length of `reqs` in which slot `i` pairs the pointer `reqs[i]` with the response
    obtained for it, in whatever order `sched` the exchanges complete. -/
theorem Req_results_index_aligned (client : Client) (sched : List Nat) (heap : Heap)
    (reqs : List Nat) (header : String)
    (hcolon : ':' ∈ header.data)
    (hsched : sched.Perm (List.range reqs.length))
    (hok : ∀ i p, reqs.get? i = some p →
      ∃ resp, client i ((Req client sched heap reqs header).heap p) = .ok resp) :
    ∃ conns, (Req client sched heap reqs header).exit = .returned conns ∧
      conns.length = reqs.length ∧
      ∀ i p, reqs.get? i = some p →
        ∃ resp, client i ((Req client sched heap reqs header).heap p) = .ok resp ∧
          conns.get? i = some { req := some p, res := some resp } := by
  obtain ⟨h0, h1, rest, hs⟩ := Split_two_of_mem header hcolon
  rw [Req_heap_of_split _ _ _ _ _ _ _ _ hs] at hok
  rw [Req_heap_of_split _ _ _ _ _ _ _ _ hs, Req_of_split _ _ _ _ _ _ _ _ hs]
  obtain ⟨out, e1, e2, e3⟩ := dispatch_all_ok client _ reqs sched []
    (List.replicate reqs.length { req := none, res := none }) hok
  refine ⟨out, e1, by simpa using e2, ?_⟩
  intro i p hi
  obtain ⟨resp, hr⟩ := hok i p hi
  have hlt : i < reqs.length := by
    rcases Nat.lt_or_ge i reqs.length with h | h
    · exact h
    · rw [List.get?_eq_none.2 h] at hi; cases hi
  refine ⟨resp, hr, e3 i p resp hi hr (by simpa using hlt) (Or.inl ?_)⟩
  exact (hsched.mem_iff).2 (List.mem_range.2 hlt)

/-- Two requests at the addresses 7 and 9, answered in the order 1, 0. -/
theorem Req_results_index_aligned_witness :
    ∃ conns, (Req okClient [1, 0] sampleHeap [7, 9] "Cookie: session=abc").exit
        = .returned conns ∧
      conns.length = [7, 9].length ∧
      ∀ i p, [7, 9].get? i = some p →
        ∃ resp, okClient i
            ((Req okClient [1, 0] sampleHeap [7, 9] "Cookie: session=abc").heap p)
              = .ok resp ∧
          conns.get? i = some { req := some p, res := some resp } :=
  Req_results_index_aligned okClient [1, 0] sampleHeap [7, 9] "Cookie: session=abc"
    (by decide) (by decide) (fun _ _ _ => ⟨_, rfl⟩)

/-- C2: for an override string `Name: value` with exactly one colon (any number of
    spaces around the name and around the value) whose name is in canonical header form,
    after `Req` has applied the override every request of the slice has under `Name`
    exactly the value list `[value]`, whatever it held under that name before. -/
theorem Req_override_canonical_name (client : Client) (sched : List Nat) (heap : Heap)
    (reqs : List Nat) (name value : String) (a b c d : Nat)
    (hn : ':' ∉ name.data) (hv : ':' ∉ value.data)
    (hn1 : name.data.head? ≠ some ' ') (hn2 : name.data.getLast? ≠ some ' ')
    (hv1 : value.data.head? ≠ some ' ') (hv2 : value.data.getLast? ≠ some ' ')
    (hcanon : CanonicalMIMEHeaderKey name = name) (p : Nat) (hp : p ∈ reqs) :
    ((Req client sched heap reqs
        (String.mk (List.replicate a ' ') ++ name ++ String.mk (List.replicate b ' ') ++ ":"
          ++ String.mk (List.replicate c ' ') ++ value ++ String.mk (List.replicate d ' '))).heap
      p).Header name = some [value] := by
  have hs : Split
      (String.mk (List.replicate a ' ') ++ name ++ String.mk (List.replicate b ' ') ++ ":"
        ++ String.mk (List.replicate c ' ') ++ value ++ String.mk (List.replicate d ' ')) ':'
      = [String.mk (List.replicate a ' ' ++ name.data ++ List.replicate b ' '),
         String.mk (List.replicate c ' ' ++ value.data ++ List.replicate d ' ')] := by
    have e : (String.mk (List.replicate a ' ') ++ name ++ String.mk (List.replicate b ' ')
        ++ ":" ++ String.mk (List.replicate c ' ') ++ value
        ++ String.mk (List.replicate d ' ')).data
        = (List.replicate a ' ' ++ name.data ++ List.replicate b ' ') ++
          ':' :: (List.replicate c ' ' ++ value.data ++ List.replicate d ' ') := by
      simp [String.data_append]
    have m1 : ':' ∉ List.replicate a ' ' ++ name.data ++ List.replicate b ' ' := by
      simp [List.mem_replicate, hn]
    have m2 : ':' ∉ List.replicate c ' ' ++ value.data ++ List.replicate d ' ' := by
      simp [List.mem_replicate, hv]
    simp only [Split, e]
    rw [splitChars_append_sep _ _ _ m1, splitChars_of_not_mem _ _ m2]
    rfl
  rw [Req_heap_of_split _ _ _ _ _ _ _ _ hs, Trim_padded _ _ _ _ hn1 hn2,
    Trim_padded _ _ _ _ hv1 hv2]
  exact setHeaders_canonical _ _ _ _ hcanon p hp

/-- The override `Cookie: session=abc` on a request that holds `Cookie: old`. -/
theorem Req_override_canonical_name_witness :
    ((Req okClient [0] sampleHeap [5]
        (String.mk (List.replicate 0 ' ') ++ "Cookie" ++ String.mk (List.replicate 0 ' ')
          ++ ":" ++ String.mk (List.replicate 1 ' ') ++ "session=abc"
          ++ String.mk (List.replicate 0 ' '))).heap 5).Header "Cookie"
      = some ["session=abc"] :=
  Req_override_canonical_name okClient [0] sampleHeap [5] "Cookie" "session=abc" 0 0 1 0
    (by decide) (by decide) (by decide) (by decide) (by decide) (by decide) (by decide)
    5 (by decide)

/-- C3: with the empty override string (the default of the flag `-h`) `Split` gives one
    piece, `headerSet[1]` panics, and `Req` ends in `log.Fatal` with no request
    dispatched and no header touched, for every slice of requests. -/
theorem Req_empty_header_fatal (client : Client) (sched : List Nat) (heap : Heap)
    (reqs : List Nat) :
    (∃ msg, (Req client sched heap reqs "").exit = .fatal msg) ∧
      (Req client sched heap reqs "").dispatched = [] ∧
      (Req client sched heap reqs "").heap = heap := by
  have hs : Split "" ':' = [""] := by decide
  rw [Req_of_one_piece _ _ _ _ _ _ hs]
  exact ⟨⟨_, rfl⟩, rfl, rfl⟩

/-- C4: on the override string `Referer: http://example.test/a` the value `Req` stores
    is `http`, the text between the first and the second colon, and not the text after
    the first colon. -/
theorem Req_value_cut_at_second_colon (client : Client) (sched : List Nat) (heap : Heap)
    (p : Nat) :
    ((Req client sched heap [p] "Referer: http://example.test/a").heap p).Header "Referer"
      = some ["http"] := by
  have hs : Split "Referer: http://example.test/a" ':'
      = ["Referer", " http", "//example.test/a"] := by decide
  have t0 : Trim "Referer" ' ' = "Referer" := by decide
  have t1 : Trim " http" ' ' = "http" := by decide
  rw [Req_heap_of_split _ _ _ _ _ _ _ _ hs, t0, t1]
  exact setHeaders_canonical _ _ _ _ (by decide) p (by simp)

/-- C5: a request that has the header `Cookie` with values `vs` (and no key spelled
    `cookie`) has, after `Req` applied the override `cookie: new`, the values
    `vs ++ [new]` under `Cookie`: the value is appended, the header is not replaced. -/
theorem Req_override_lowercase_appends (client : Client) (sched : List Nat) (heap : Heap)
    (p : Nat) (vs : List String)
    (h1 : (heap p).Header "Cookie" = some vs) (h2 : (heap p).Header "cookie" = none) :
    ((Req client sched heap [p] "cookie: new").heap p).Header "Cookie"
      = some (vs ++ ["new"]) := by
  have hs : Split "cookie: new" ':' = ["cookie", " new"] := by decide
  have t0 : Trim "cookie" ' ' = "cookie" := by decide
  have t1 : Trim " new" ' ' = "new" := by decide
  have hk : CanonicalMIMEHeaderKey "cookie" = "Cookie" := by decide
  rw [Req_heap_of_split _ _ _ _ _ _ _ _ hs, t0, t1, setHeaders_singleton,
    setHeader_of_absent _ _ _ h2]
  simp [Header.Add, hk, h1]

/-- The override `cookie: new` on a request that holds `Cookie: old`. -/
theorem Req_override_lowercase_appends_witness :
    (sampleHeap 0).Header "Cookie" = some ["old"] ∧
      ((Req okClient [0] sampleHeap [0] "cookie: new").heap 0).Header "Cookie"
        = some (["old"] ++ ["new"]) :=
  ⟨by decide, Req_override_lowercase_appends okClient [0] sampleHeap 0 ["old"]
    (by decide) (by decide)⟩

/-- C6: when the exchange of some index `j` fails, `Req` returns no slice at all: the
    goroutine of `j` panics and the process dies, in whatever order the exchanges
    complete and whether or not the other exchanges succeeded. -/
theorem Req_failed_exchange_kills_run (client : Client) (sched : List Nat) (heap : Heap)
    (reqs : List Nat) (header : String) (j p : Nat) (err : String)
    (hcolon : ':' ∈ header.data)
    (hsched : sched.Perm (List.range reqs.length))
    (hj : reqs.get? j = some p)
    (hfail : client j ((Req client sched heap reqs header).heap p) = .error err) :
    ∃ msg, (Req client sched heap reqs header).exit = .panicked msg := by
  obtain ⟨h0, h1, rest, hs⟩ := Split_two_of_mem header hcolon
  rw [Req_heap_of_split _ _ _ _ _ _ _ _ hs] at hfail
  rw [Req_of_split _ _ _ _ _ _ _ _ hs]
  have hlt : j < reqs.length := by
    rcases Nat.lt_or_ge j reqs.length with h | h
    · exact h
    · rw [List.get?_eq_none.2 h] at hj; cases hj
  exact dispatch_panics client _ reqs sched [] _ j p err
    ((hsched.mem_iff).2 (List.mem_range.2 hlt)) hj hfail

/-- Two requests; the exchange of index 1 is answered first, the one of index 0 is refused. -/
theorem Req_failed_exchange_kills_run_witness :
    (∃ resp, refusingClient 1
        ((Req refusingClient [1, 0] sampleHeap [0, 1] "Cookie: session=abc").heap 1)
          = .ok resp) ∧
      ∃ msg, (Req refusingClient [1, 0] sampleHeap [0, 1] "Cookie: session=abc").exit
        = .panicked msg :=
  ⟨⟨_, rfl⟩,
    Req_failed_exchange_kills_run refusingClient [1, 0] sampleHeap [0, 1]
      "Cookie: session=abc" 0 0 "dial tcp: connection refused"
      (by decide) (by decide) rfl rfl⟩

/-- C7: on a request that has no key spelled `cookie`, applying the override step of
    `Req` twice with the string `cookie: x` leaves another value list under `Cookie`
    than applying it once: each application appends one more `x`. -/
theorem Req_override_twice_differs (client : Client) (sched : List Nat) (heap : Heap)
    (p : Nat) (h : (heap p).Header "cookie" = none) :
    ((Req client sched (Req client sched heap [p] "cookie: x").heap [p] "cookie: x").heap
        p).Header "Cookie"
      ≠ ((Req client sched heap [p] "cookie: x").heap p).Header "Cookie" := by
  have hs : Split "cookie: x" ':' = ["cookie", " x"] := by decide
  have t0 : Trim "cookie" ' ' = "cookie" := by decide
  have t1 : Trim " x" ' ' = "x" := by decide
  have hk : CanonicalMIMEHeaderKey "cookie" = "Cookie" := by decide
  have hne : ("cookie" : String) ≠ "Cookie" := by decide
  have once : (Req client sched heap [p] "cookie: x").heap p
      = setHeader (heap p) "cookie" "x" := by
    rw [Req_heap_of_split _ _ _ _ _ _ _ _ hs, t0, t1, setHeaders_singleton]
  have h1 : (setHeader (heap p) "cookie" "x").Header "cookie" = none := by
    rw [setHeader_of_absent _ _ _ h]
    simp [Header.Add, hk, Function.update_noteq hne, h]
  rw [Req_heap_of_split _ _ _ _ _ _ _ _ hs, t0, t1, setHeaders_singleton, once,
    setHeader_of_absent _ _ _ h1, setHeader_of_absent _ _ _ h]
  simp [Header.Add, hk]

/-- The override `cookie: x`, once and twice, on a request that holds `Cookie: old`. -/
theorem Req_override_twice_differs_witness :
    ((Req okClient [0] sampleHeap [0] "cookie: x").heap 0).Header "Cookie"
        = some ["old", "x"] ∧
      ((Req okClient [0] (Req okClient [0] sampleHeap [0] "cookie: x").heap [0]
          "cookie: x").heap 0).Header "Cookie"
        ≠ ((Req okClient [0] sampleHeap [0] "cookie: x").heap 0).Header "Cookie" :=
  ⟨by decide, Req_override_twice_differs okClient [0] sampleHeap 0 (by decide)⟩

/-- C8: a capture document holding an item whose `request` element is empty makes
    `ParseBurpHist` end in `log.Fatal`: the item is not skipped. The empty text decodes
    to no bytes, and `http.ReadRequest` fails on no bytes. -/
theorem ParseBurpHist_empty_request_fatal (lib : Lib) (file : String) (xmlFile : Nat)
    (byteValue : List UInt8) (pre post : List Item) (it : Item) (err : String)
    (hopen : lib.Open file = .ok xmlFile) (hread : lib.ReadAll xmlFile = .ok byteValue)
    (hitems : (lib.Unmarshal byteValue).1.Item = pre ++ it :: post)
    (hempty : it.RequestText = "")
    (hdec : lib.DecodeString "" = .ok []) (hreq : lib.ReadRequest [] = .error err) :
    ∃ msg, ParseBurpHist lib file = .fatal msg := by
  simp only [ParseBurpHist, hopen, hread, hitems]
  exact parseItems_empty_request lib pre post it [] hempty hdec err hreq

/-- The file `history.xml` of `sampleLib`: two items, the second without request text. -/
theorem ParseBurpHist_empty_request_fatal_witness :
    (sampleLib.Unmarshal [60, 105, 62]).1.Item.length = 2 ∧
      ∃ msg, ParseBurpHist sampleLib "history.xml" = .fatal msg :=
  ⟨by decide,
    ParseBurpHist_empty_request_fatal sampleLib "history.xml" 4 [60, 105, 62]
      [{ URL := "http://example.test/a", RequestText := "R0VUIC9hIEhUVFAvMS4x" }] []
      { URL := "http://example.test/b", RequestText := "" } "EOF"
      rfl rfl rfl rfl rfl rfl⟩

/-- C9: when `xml.Unmarshal` reports an error and has filled in no item, as on content
    that is no markup at all, `ParseBurpHist` does not fail: it returns the empty list. -/
theorem ParseBurpHist_ignores_markup_error (lib : Lib) (file : String) (xmlFile : Nat)
    (byteValue : List UInt8) (err : String)
    (hopen : lib.Open file = .ok xmlFile) (hread : lib.ReadAll xmlFile = .ok byteValue)
    (_hbad : (lib.Unmarshal byteValue).2 = some err)
    (hnone : (lib.Unmarshal byteValue).1.Item = []) :
    ParseBurpHist lib file = .returned [] := by
  simp only [ParseBurpHist, hopen, hread, hnone, parseItems]

/-- The file `broken.xml` of `sampleLib`, on which `xml.Unmarshal` reports an error. -/
theorem ParseBurpHist_ignores_markup_error_witness :
    (sampleLib.Unmarshal [60]).2 = some "XML syntax error on line 1: unexpected EOF" ∧
      ParseBurpHist sampleLib "broken.xml" = .returned [] :=
  ⟨by decide,
    ParseBurpHist_ignores_markup_error sampleLib "broken.xml" 3 [60]
      "XML syntax error on line 1: unexpected EOF" rfl rfl rfl rfl⟩

/-- C10: for every override string without a colon and every slice of requests, `Req`
    ends in `log.Fatal` (the recovered index panic of `headerSet[1]`), before any
    request is dispatched and before any header is touched; it returns no results. -/
theorem Req_no_colon_fatal (client : Client) (sched : List Nat) (heap : Heap)
    (reqs : List Nat) (header : String) (hcolon : ':' ∉ header.data) :
    (∃ msg, (Req client sched heap reqs header).exit = .fatal msg) ∧
      (Req client sched heap reqs header).dispatched = [] ∧
      (Req client sched heap reqs header).heap = heap := by
  rw [Req_of_one_piece _ _ _ _ _ _ (Split_of_not_mem header hcolon)]
  exact ⟨⟨_, rfl⟩, rfl, rfl⟩

/-- The override string `Cookie session=abc`, which has no colon. -/
theorem Req_no_colon_fatal_witness :
    ':' ∉ ("Cookie session=abc" : String).data ∧
      (∃ msg, (Req okClient [1, 0] sampleHeap [7, 9] "Cookie session=abc").exit
        = .fatal msg) ∧
      (Req okClient [1, 0] sampleHeap [7, 9] "Cookie session=abc").dispatched = [] ∧
      (Req okClient [1, 0] sampleHeap [7, 9] "Cookie session=abc").heap = sampleHeap :=
  ⟨by decide, Req_no_colon_fatal okClient [1, 0] sampleHeap [7, 9] "Cookie session=abc"
    (by decide)⟩

end Auther
